import Mathlib

/-!
Verification of the record-indexing core of `oby-server` (src/db.rs and
src/requests_database.rs) against its natural-language specification.

The sled-backed key-value store is modelled as an association list from
key strings to stored values; `bincode` serialization is modelled by a
tagged sum `StoredValue` (one constructor per record kind), so that
deserializing at the wrong kind fails, exactly as a scan hitting a
foreign entry would.  All definitions are executable.
-/

namespace Oby

/-- Modelled from the spec: record kind *Offer* (spec §3); the `shared::dbt`
module is not under src/, its fields are taken from the spec and from their
uses in src/main.rs (`name`, `description`, `price_integer`, `price_fraction`). -/
structure Offer where
  name : String
  description : String
  price_integer : Nat
  price_fraction : Nat
deriving DecidableEq

/-- Modelled from the spec: record kind *Table* (spec §3): a unique `name`
and a monotonically increasing `order_count` (a `u32` in the source). -/
structure VirtualTable where
  name : String
  order_count : Nat
deriving DecidableEq

/-- Modelled from the spec: one line item of an order (offer name, quantity). -/
structure OrderItem where
  id : String
  count : Nat
deriving DecidableEq

/-- Modelled from the spec: order identity = (table name, sequence number). -/
structure OrderID where
  table : String
  count : Nat
deriving DecidableEq

/-- Modelled from the spec: record kind *Order* (spec §3), mirrored from the
doc example in src/db.rs: identity, finished flag, line items. -/
structure Order where
  id : OrderID
  finished : Bool
  items : List OrderItem
deriving DecidableEq

/-- A value stored in the database: the `bincode`-serialized form of one of
the three record kinds.  Deserializing it at the wrong kind fails. -/
inductive StoredValue where
  | offerVal : Offer → StoredValue
  | tableVal : VirtualTable → StoredValue
  | orderVal : Order → StoredValue
deriving DecidableEq

/-- Shallow embedding of the Rust trait `DatabaseElement` (src/db.rs):
the per-kind data (`namespace`, identifiers, status) together with the
serialization pair and its round-trip laws. -/
class DatabaseElement (α : Type) where
  nspace : String
  main_identifier : α → String
  secondary_identifiers : α → List String
  status : α → List String
  serializeVal : α → StoredValue
  deserializeVal : StoredValue → Option α
  deser_ser : ∀ a : α, deserializeVal (serializeVal a) = some a
  ser_deser : ∀ (v : StoredValue) (a : α), deserializeVal v = some a → v = serializeVal a

export DatabaseElement (nspace main_identifier secondary_identifiers status
  serializeVal deserializeVal deser_ser ser_deser)

/-- `DatabaseElement::QUALIFIED_SEPARATOR` in src/db.rs. -/
def QUALIFIED_SEPARATOR : String := "/"

/-- `status_to_string` in src/db.rs: `format!("({})", self.status().join(","))`. -/
def status_to_string [DatabaseElement α] (a : α) : String :=
  "(" ++ String.intercalate "," (status a) ++ ")"

/-- `secondary_identifiers_try_to_string` in src/db.rs. -/
def secondary_identifiers_try_to_string [DatabaseElement α] (a : α) : Option String :=
  if (secondary_identifiers a).isEmpty then none
  else some (String.intercalate QUALIFIED_SEPARATOR (secondary_identifiers a))

/-- `qualified_identifier_mainless_secondless` in src/db.rs. -/
def qualified_identifier_mainless_secondless [DatabaseElement α] (a : α) : String :=
  String.intercalate QUALIFIED_SEPARATOR
    [DatabaseElement.nspace (α := α), status_to_string a]

/-- `qualified_identifier_mainless` in src/db.rs: the partial key, with the
secondary-identifier level appended only when it is non-empty. -/
def qualified_identifier_mainless [DatabaseElement α] (a : α) : String :=
  match secondary_identifiers_try_to_string a with
  | none => qualified_identifier_mainless_secondless a
  | some s => String.intercalate QUALIFIED_SEPARATOR
      [qualified_identifier_mainless_secondless a, s]

/-- `qualified_identifier` in src/db.rs. -/
def qualified_identifier [DatabaseElement α] (a : α) : String :=
  String.intercalate QUALIFIED_SEPARATOR
    [qualified_identifier_mainless a, main_identifier a]

/-- `impl DatabaseElement for dbt::Offer` in src/db.rs. -/
instance : DatabaseElement Offer where
  nspace := "offer"
  main_identifier o := o.name
  secondary_identifiers _ := []
  status _ := []
  serializeVal := StoredValue.offerVal
  deserializeVal v := match v with | .offerVal o => some o | _ => none
  deser_ser _ := rfl
  ser_deser v a h := by cases v <;> simp_all

/-- `impl DatabaseElement for dbt::VirtualTable` in src/db.rs. -/
instance : DatabaseElement VirtualTable where
  nspace := "table"
  main_identifier t := t.name
  secondary_identifiers _ := []
  status _ := []
  serializeVal := StoredValue.tableVal
  deserializeVal v := match v with | .tableVal t => some t | _ => none
  deser_ser _ := rfl
  ser_deser v a h := by cases v <;> simp_all

/-- `impl DatabaseElement for dbt::Order` in src/db.rs: status is "old" or
"new" after the finished flag, main identifier is the decimal form of the
sequence number, secondary identifier is the owning table's name. -/
instance : DatabaseElement Order where
  nspace := "order"
  main_identifier o := Nat.repr o.id.count
  secondary_identifiers o := [o.id.table]
  status o := [if o.finished then "old" else "new"]
  serializeVal := StoredValue.orderVal
  deserializeVal v := match v with | .orderVal o => some o | _ => none
  deser_ser _ := rfl
  ser_deser v a h := by cases v <;> simp_all

/-- The sled database, modelled as an association list from key strings to
stored values (sled's iteration order is irrelevant to the claims, which
are stated through membership). -/
abbrev Db := List (String × StoredValue)

/-- Byte-level has-this-as-a-start test, as sled's `scan_prefix` performs
on raw key bytes (character level and byte level agree on valid UTF-8). -/
def hasPfx : List Char → List Char → Bool
  | [], _ => true
  | _ :: _, [] => false
  | a :: as, b :: bs => a == b && hasPfx as bs

/-- `sled::Db::insert`: write at the key, overwriting any existing entry. -/
def dbInsert (db : Db) (k : String) (v : StoredValue) : Db :=
  (k, v) :: db.filter (fun kv => !(kv.fst == k))

/-- `sled::Db::remove`: delete the entry at the key if present. -/
def dbRemove (db : Db) (k : String) : Db :=
  db.filter (fun kv => !(kv.fst == k))

/-- `sled::Db::get`: point lookup. -/
def dbGet (db : Db) (k : String) : Option StoredValue :=
  (db.find? (fun kv => kv.fst == k)).map Prod.snd

/-- `sled::Db::contains_key`. -/
def dbContains (db : Db) (k : String) : Bool :=
  (dbGet db k).isSome

/-- `sled::Db::scan_prefix`: all entries whose key starts with the given
string. -/
def dbScanPfx (db : Db) (p : String) : Db :=
  db.filter (fun kv => hasPfx p.data kv.fst.data)

/-- `DatabaseElement::insert` in src/db.rs: serialize and write at the
qualified identifier (serialization of these kinds cannot fail). -/
def insert [DatabaseElement α] (a : α) (db : Db) : Db :=
  dbInsert db (qualified_identifier a) (serializeVal a)

/-- `DatabaseElement::remove` in src/db.rs. -/
def remove [DatabaseElement α] (a : α) (db : Db) : Db :=
  dbRemove db (qualified_identifier a)

/-- `DatabaseElement::exists` in src/db.rs. -/
def existsElem [DatabaseElement α] (a : α) (db : Db) : Bool :=
  dbContains db (qualified_identifier a)

/-- `DatabaseElement::get` in src/db.rs: point lookup distinguishing
not-found (`Except.ok none`) from a deserialization failure. -/
def get (α : Type) [DatabaseElement α] (id : String) (db : Db) :
    Except String (Option α) :=
  match dbGet db id with
  | none => Except.ok none
  | some v =>
    match deserializeVal (α := α) v with
    | some a => Except.ok (some a)
    | none => Except.error "deserialization failure"

/-- The scan loop shared by `get_templated`, `get_status` and `get_all` in
src/db.rs: iterator items that are themselves errors are skipped, a value
that fails to deserialize aborts the whole scan with an error, and
successfully decoded values are collected in order. -/
def collectScan (α : Type) [DatabaseElement α] :
    List (Except Unit (String × StoredValue)) → Except String (List α)
  | [] => Except.ok []
  | Except.error _ :: rest => collectScan α rest
  | Except.ok kv :: rest =>
    match deserializeVal (α := α) kv.snd with
    | none => Except.error "deserialization failure"
    | some a => (collectScan α rest).map (fun tail => a :: tail)

/-- `DatabaseElement::get_templated` in src/db.rs: scan at the mainless
qualified identifier (sled itself yields no errored items here, hence the
`Except.ok` wrapping). -/
def get_templated [DatabaseElement α] (a : α) (db : Db) : Except String (List α) :=
  collectScan α ((dbScanPfx db (qualified_identifier_mainless a)).map Except.ok)

/-- `DatabaseElement::get_status` in src/db.rs: scan at the mainless,
secondless qualified identifier. -/
def get_status [DatabaseElement α] (a : α) (db : Db) : Except String (List α) :=
  collectScan α ((dbScanPfx db (qualified_identifier_mainless_secondless a)).map Except.ok)

/-- `DatabaseElement::get_all` in src/db.rs: scan at the namespace alone. -/
def get_all (α : Type) [DatabaseElement α] (db : Db) : Except String (List α) :=
  collectScan α ((dbScanPfx db (DatabaseElement.nspace (α := α))).map Except.ok)

/-- The database-touching core of `handler_orders_insert` in
src/requests_database.rs: fetch the table by exact key (missing table
aborts with the state unchanged), bump its `u32` counter, stamp the new
counter into the submitted order, and persist both.  Returns the new
database state and, on success, the stored order. -/
def handler_orders_insert (db : Db) (template : Order) : Db × Option Order :=
  match get VirtualTable
      (qualified_identifier (VirtualTable.mk template.id.table 0)) db with
  | Except.ok (some table) =>
    let table2 : VirtualTable :=
      { table with order_count := (table.order_count + 1) % 4294967296 }
    let order : Order :=
      { template with id := { template.id with count := table2.order_count } }
    (insert order (insert table2 db), some order)
  | _ => (db, none)

/-- The database-touching core of `handler_orders_finish` in
src/requests_database.rs: fetch the order at the submitted identity's key
(absence or decode failure aborts with the state unchanged), remove the
entry at the old key, flip the finished flag and insert at the new key.
Returns the new database state and, on success, the owning table's name. -/
def handler_orders_finish (db : Db) (template : Order) : Db × Option String :=
  match get Order (qualified_identifier template) db with
  | Except.ok (some o) =>
    let order : Order := { o with finished := true }
    (insert order (remove template db), some order.id.table)
  | _ => (db, none)

/-- An entry of the keyspace that is the honest image of a record of kind
`α`: stored at its qualified identifier, holding its serialization. -/
def EntryOfKind (α : Type) [DatabaseElement α] (kv : String × StoredValue) : Prop :=
  ∃ a : α, kv = (qualified_identifier a, serializeVal a)

/-- A well-formed database: every entry is the honest image of a record of
one of the three kinds. -/
def WellFormed (db : Db) : Prop :=
  ∀ kv ∈ db, EntryOfKind Offer kv ∨ EntryOfKind VirtualTable kv ∨ EntryOfKind Order kv

/-! ### String and key lemmas -/

theorem sdata_append (s t : String) : (s ++ t).data = s.data ++ t.data := rfl

/-- An offer's key is its namespace, the empty status level, and its name. -/
theorem offer_key (o : Offer) : qualified_identifier o = "offer/()/" ++ o.name := rfl

/-- A table's key is its namespace, the empty status level, and its name. -/
theorem table_key (t : VirtualTable) : qualified_identifier t = "table/()/" ++ t.name := rfl

theorem offer_key_data (o : Offer) :
    (qualified_identifier o).data = "offer/()/".data ++ o.name.data := rfl

theorem table_key_data (t : VirtualTable) :
    (qualified_identifier t).data = "table/()/".data ++ t.name.data := rfl

theorem order_key_data_new (o : Order) (h : o.finished = false) :
    (qualified_identifier o).data
      = "order/(new)/".data ++ (o.id.table.data ++ ("/".data ++ (Nat.repr o.id.count).data)) := by
  obtain ⟨⟨tb, cn⟩, fin, its⟩ := o
  simp only at h
  subst h
  simp [qualified_identifier, qualified_identifier_mainless,
    secondary_identifiers_try_to_string, qualified_identifier_mainless_secondless,
    status_to_string, QUALIFIED_SEPARATOR, String.intercalate, String.intercalate.go,
    sdata_append, DatabaseElement.main_identifier, DatabaseElement.secondary_identifiers,
    DatabaseElement.status, DatabaseElement.nspace]

theorem order_key_data_old (o : Order) (h : o.finished = true) :
    (qualified_identifier o).data
      = "order/(old)/".data ++ (o.id.table.data ++ ("/".data ++ (Nat.repr o.id.count).data)) := by
  obtain ⟨⟨tb, cn⟩, fin, its⟩ := o
  simp only at h
  subst h
  simp [qualified_identifier, qualified_identifier_mainless,
    secondary_identifiers_try_to_string, qualified_identifier_mainless_secondless,
    status_to_string, QUALIFIED_SEPARATOR, String.intercalate, String.intercalate.go,
    sdata_append, DatabaseElement.main_identifier, DatabaseElement.secondary_identifiers,
    DatabaseElement.status, DatabaseElement.nspace]

theorem offer_msl (o : Offer) : qualified_identifier_mainless_secondless o = "offer/()" := rfl

theorem table_msl (t : VirtualTable) : qualified_identifier_mainless_secondless t = "table/()" := rfl

theorem offer_mainless (o : Offer) : qualified_identifier_mainless o = "offer/()" := rfl

theorem table_mainless (t : VirtualTable) : qualified_identifier_mainless t = "table/()" := rfl

theorem order_msl_new (t : Order) (h : t.finished = false) :
    qualified_identifier_mainless_secondless t = "order/(new)" := by
  obtain ⟨⟨tb, cn⟩, fin, its⟩ := t
  simp only at h
  subst h
  rfl

theorem order_msl_old (t : Order) (h : t.finished = true) :
    qualified_identifier_mainless_secondless t = "order/(old)" := by
  obtain ⟨⟨tb, cn⟩, fin, its⟩ := t
  simp only at h
  subst h
  rfl

theorem order_mainless_new (t : Order) (h : t.finished = false) :
    (qualified_identifier_mainless t).data = "order/(new)/".data ++ t.id.table.data := by
  obtain ⟨⟨tb, cn⟩, fin, its⟩ := t
  simp only at h
  subst h
  simp [qualified_identifier_mainless, secondary_identifiers_try_to_string,
    qualified_identifier_mainless_secondless, status_to_string, QUALIFIED_SEPARATOR,
    String.intercalate, String.intercalate.go, sdata_append,
    DatabaseElement.secondary_identifiers, DatabaseElement.status, DatabaseElement.nspace]

theorem order_mainless_old (t : Order) (h : t.finished = true) :
    (qualified_identifier_mainless t).data = "order/(old)/".data ++ t.id.table.data := by
  obtain ⟨⟨tb, cn⟩, fin, its⟩ := t
  simp only at h
  subst h
  simp [qualified_identifier_mainless, secondary_identifiers_try_to_string,
    qualified_identifier_mainless_secondless, status_to_string, QUALIFIED_SEPARATOR,
    String.intercalate, String.intercalate.go, sdata_append,
    DatabaseElement.secondary_identifiers, DatabaseElement.status, DatabaseElement.nspace]

/-- The key of an order depends only on its identity and finished flag. -/
theorem order_key_congr (o t : Order) (h1 : o.id = t.id) (h2 : o.finished = t.finished) :
    qualified_identifier o = qualified_identifier t := by
  obtain ⟨oid, ofin, oits⟩ := o
  obtain ⟨tid, tfin, tits⟩ := t
  simp only at h1 h2
  subst h1; subst h2
  rfl

/-! ### hasPfx lemmas -/

theorem hasPfx_self_append (p r : List Char) : hasPfx p (p ++ r) = true := by
  induction p with
  | nil => rfl
  | cons a as ih => simp [hasPfx, ih]

theorem hasPfx_mono (p q s : List Char) (h : hasPfx (p ++ q) s = true) :
    hasPfx p s = true := by
  induction p generalizing s with
  | nil => rfl
  | cons a as ih =>
    cases s with
    | nil => simp [hasPfx] at h
    | cons b bs =>
      simp only [List.cons_append, hasPfx, Bool.and_eq_true] at h ⊢
      exact ⟨h.1, ih bs h.2⟩

theorem no_table_in_offer (r : List Char) : hasPfx "offer".data ("table/()/".data ++ r) = false := rfl

theorem no_order_in_offer_new (r : List Char) : hasPfx "offer".data ("order/(new)/".data ++ r) = false := rfl

theorem no_order_in_offer_old (r : List Char) : hasPfx "offer".data ("order/(old)/".data ++ r) = false := rfl

theorem no_offer_in_table (r : List Char) : hasPfx "table".data ("offer/()/".data ++ r) = false := rfl

theorem no_order_in_table_new (r : List Char) : hasPfx "table".data ("order/(new)/".data ++ r) = false := rfl

theorem no_order_in_table_old (r : List Char) : hasPfx "table".data ("order/(old)/".data ++ r) = false := rfl

theorem no_offer_in_order (r : List Char) : hasPfx "order".data ("offer/()/".data ++ r) = false := rfl

theorem no_table_in_order (r : List Char) : hasPfx "order".data ("table/()/".data ++ r) = false := rfl

theorem pfx_new_of_new (r : List Char) : hasPfx "order/(new)".data ("order/(new)/".data ++ r) = true := rfl

theorem pfx_old_of_old (r : List Char) : hasPfx "order/(old)".data ("order/(old)/".data ++ r) = true := rfl

theorem no_old_in_new (r : List Char) : hasPfx "order/(new)".data ("order/(old)/".data ++ r) = false := rfl

theorem no_new_in_old (r : List Char) : hasPfx "order/(old)".data ("order/(new)/".data ++ r) = false := rfl

/-! ### Association-list store lemmas -/

theorem dbGet_insert_self (db : Db) (k : String) (v : StoredValue) :
    dbGet (dbInsert db k v) k = some v := by
  simp [dbGet, dbInsert, List.find?]

theorem dbGet_filter_ne (l : Db) (k : String) :
    dbGet (l.filter fun kv => !(kv.fst == k)) k = none := by
  have h : List.find? (fun kv => kv.fst == k) (l.filter fun kv => !(kv.fst == k)) = none := by
    rw [List.find?_eq_none]
    intro kv hkv
    have h2 := (List.mem_filter.mp hkv).2
    simpa using h2
  simp [dbGet, h]

theorem dbGet_eq_none_of_fresh (db : Db) (k : String) (h : ∀ kv ∈ db, kv.fst ≠ k) :
    dbGet db k = none := by
  have h2 : List.find? (fun kv => kv.fst == k) db = none := by
    rw [List.find?_eq_none]
    intro kv hkv
    simpa using h kv hkv
  simp [dbGet, h2]

theorem mem_dbScanPfx (db : Db) (p : String) (kv : String × StoredValue) :
    kv ∈ dbScanPfx db p ↔ kv ∈ db ∧ hasPfx p.data kv.fst.data = true := by
  simp [dbScanPfx, List.mem_filter]

theorem dbGet_cons_ne (k0 : String) (v0 : StoredValue) (l : Db) (k : String)
    (h : (k0 == k) = false) : dbGet ((k0, v0) :: l) k = dbGet l k := by
  simp [dbGet, List.find?, h]

/-! ### Serialization lemmas -/

theorem ser_offer (o : Offer) : serializeVal o = StoredValue.offerVal o := rfl

theorem ser_table (t : VirtualTable) : serializeVal t = StoredValue.tableVal t := rfl

theorem ser_order (o : Order) : serializeVal o = StoredValue.orderVal o := rfl

theorem serializeVal_inj [DatabaseElement α] (a b : α)
    (h : serializeVal a = serializeVal b) : a = b := by
  have h2 := congrArg (deserializeVal (α := α)) h
  rw [deser_ser, deser_ser] at h2
  exact Option.some.inj h2

/-! ### Scan-loop lemmas -/

/-- If every scanned value is the serialization of a record of kind `α`,
the scan succeeds and its result is characterized by membership. -/
theorem collectScan_char (α : Type) [DatabaseElement α] (l : List (String × StoredValue))
    (h : ∀ kv ∈ l, ∃ a : α, kv.snd = serializeVal a) :
    ∃ L, collectScan α (l.map Except.ok) = Except.ok L ∧
      ∀ a : α, a ∈ L ↔ ∃ k, (k, serializeVal a) ∈ l := by
  induction l with
  | nil => exact ⟨[], rfl, by simp⟩
  | cons kv rest ih =>
    obtain ⟨a0, ha0⟩ := h kv (by simp)
    obtain ⟨L, hL, hmem⟩ := ih (fun kv2 h2 => h kv2 (by simp [h2]))
    refine ⟨a0 :: L, ?_, ?_⟩
    · simp [collectScan, ha0, deser_ser, hL, Except.map]
    · intro a
      simp only [List.mem_cons, hmem]
      constructor
      · rintro (rfl | ⟨k, hk⟩)
        · exact ⟨kv.fst, Or.inl (by rw [← ha0])⟩
        · exact ⟨k, Or.inr hk⟩
      · rintro ⟨k, hk⟩
        rcases hk with heq | htail
        · left
          have h2 : serializeVal a = kv.snd := (Prod.ext_iff.mp heq).2
          exact serializeVal_inj a a0 (h2.trans ha0)
        · exact Or.inr ⟨k, htail⟩

/-- Any record in a successful scan's result came from a scanned entry
holding its serialization. -/
theorem collectScan_mem (α : Type) [DatabaseElement α]
    (l : List (Except Unit (String × StoredValue))) (L : List α)
    (hL : collectScan α l = Except.ok L) (a : α) (ha : a ∈ L) :
    ∃ k, Except.ok (k, serializeVal a) ∈ l := by
  induction l generalizing L with
  | nil =>
    simp only [collectScan] at hL
    cases hL
    simp at ha
  | cons x rest ih =>
    cases x with
    | error e =>
      obtain ⟨k, hk⟩ := ih L hL ha
      exact ⟨k, List.mem_cons_of_mem _ hk⟩
    | ok kv =>
      cases hdes : deserializeVal (α := α) kv.snd with
      | none => simp [collectScan, hdes] at hL
      | some a0 =>
        simp only [collectScan, hdes] at hL
        cases hrest : collectScan α rest with
        | error e => rw [hrest] at hL; cases hL
        | ok L' =>
          rw [hrest] at hL
          cases hL
          rcases List.mem_cons.mp ha with rfl | hmem
          · have h2 : kv.snd = serializeVal a := ser_deser kv.snd a hdes
            exact ⟨kv.fst, List.mem_cons.mpr (Or.inl (by rw [← h2]))⟩
          · obtain ⟨k, hk⟩ := ih L' hrest hmem
            exact ⟨k, List.mem_cons_of_mem _ hk⟩

/-! ### Well-formedness lemmas -/

theorem WF_key_offer (db : Db) (hWF : WellFormed db) (k : String) (o : Offer)
    (h : (k, StoredValue.offerVal o) ∈ db) : k = qualified_identifier o := by
  rcases hWF _ h with ⟨b, hb⟩ | ⟨b, hb⟩ | ⟨b, hb⟩ <;>
    simp [Prod.ext_iff, ser_offer, ser_table, ser_order] at hb
  obtain ⟨hk, rfl⟩ := hb
  exact hk

theorem WF_key_table (db : Db) (hWF : WellFormed db) (k : String) (t : VirtualTable)
    (h : (k, StoredValue.tableVal t) ∈ db) : k = qualified_identifier t := by
  rcases hWF _ h with ⟨b, hb⟩ | ⟨b, hb⟩ | ⟨b, hb⟩ <;>
    simp [Prod.ext_iff, ser_offer, ser_table, ser_order] at hb
  obtain ⟨hk, rfl⟩ := hb
  exact hk

theorem WF_key_order (db : Db) (hWF : WellFormed db) (k : String) (o : Order)
    (h : (k, StoredValue.orderVal o) ∈ db) : k = qualified_identifier o := by
  rcases hWF _ h with ⟨b, hb⟩ | ⟨b, hb⟩ | ⟨b, hb⟩ <;>
    simp [Prod.ext_iff, ser_offer, ser_table, ser_order] at hb
  obtain ⟨hk, rfl⟩ := hb
  exact hk

theorem WF_filter (db : Db) (p : String × StoredValue → Bool) (h : WellFormed db) :
    WellFormed (db.filter p) :=
  fun kv hkv => h kv (List.mem_filter.mp hkv).1

theorem WF_insert_order (db : Db) (h : WellFormed db) (o : Order) :
    WellFormed (insert o db) := by
  intro kv hkv
  rcases List.mem_cons.mp hkv with rfl | htail
  · exact Or.inr (Or.inr ⟨o, rfl⟩)
  · exact WF_filter db _ h kv htail

/-- Generic characterization of one prefix scan over a database, given that
every matching entry belongs to kind `α` and that entries holding `α`
serializations sit at their qualified identifier. -/
theorem scan_char (α : Type) [DatabaseElement α] (db : Db) (p : String)
    (hdec : ∀ kv ∈ db, hasPfx p.data kv.fst.data = true → ∃ a : α, kv.snd = serializeVal a)
    (hkey : ∀ (a : α) (k : String), (k, serializeVal a) ∈ db → k = qualified_identifier a) :
    ∃ L, collectScan α ((dbScanPfx db p).map Except.ok) = Except.ok L ∧
      ∀ a : α, a ∈ L ↔ ((qualified_identifier a, serializeVal a) ∈ db ∧
        hasPfx p.data (qualified_identifier a).data = true) := by
  obtain ⟨L, hL, hmem⟩ := collectScan_char α (dbScanPfx db p)
    (fun kv hkv =>
      hdec kv ((mem_dbScanPfx db p kv).mp hkv).1 ((mem_dbScanPfx db p kv).mp hkv).2)
  refine ⟨L, hL, fun a => ?_⟩
  rw [hmem]
  constructor
  · rintro ⟨k, hk⟩
    rw [mem_dbScanPfx] at hk
    have hkq := hkey a k hk.1
    subst hkq
    exact ⟨hk.1, hk.2⟩
  · rintro ⟨h1, h2⟩
    exact ⟨_, (mem_dbScanPfx db p _).mpr ⟨h1, h2⟩⟩

/-! ### Per-kind scan facts -/

theorem hasPfx_false_of_ext (p q s : List Char) (h : hasPfx p s = false) :
    hasPfx (p ++ q) s = false := by
  cases hpq : hasPfx (p ++ q) s
  · rfl
  · exact absurd (hasPfx_mono p q s hpq) (by simp [h])

theorem pfx_order_all_new (r : List Char) : hasPfx "order".data ("order/(new)/".data ++ r) = true :=
  hasPfx_self_append "order".data ("/(new)/".data ++ r)

theorem pfx_order_all_old (r : List Char) : hasPfx "order".data ("order/(old)/".data ++ r) = true :=
  hasPfx_self_append "order".data ("/(old)/".data ++ r)

theorem pfx_offer_all (r : List Char) : hasPfx "offer".data ("offer/()/".data ++ r) = true :=
  hasPfx_self_append "offer".data ("/()/".data ++ r)

theorem pfx_table_all (r : List Char) : hasPfx "table".data ("table/()/".data ++ r) = true :=
  hasPfx_self_append "table".data ("/()/".data ++ r)

theorem pfx_offer_status (r : List Char) : hasPfx "offer/()".data ("offer/()/".data ++ r) = true :=
  hasPfx_self_append "offer/()".data ('/' :: r)

theorem pfx_table_status (r : List Char) : hasPfx "table/()".data ("table/()/".data ++ r) = true :=
  hasPfx_self_append "table/()".data ('/' :: r)

/-- Any offer key fails any test whose first five characters read "order". -/
theorem offer_key_no_order_pfx (q : List Char) (o : Offer) :
    hasPfx ("order".data ++ q) (qualified_identifier o).data = false := by
  rw [offer_key_data]
  exact hasPfx_false_of_ext _ q _ (no_offer_in_order _)

theorem table_key_no_order_pfx (q : List Char) (t : VirtualTable) :
    hasPfx ("order".data ++ q) (qualified_identifier t).data = false := by
  rw [table_key_data]
  exact hasPfx_false_of_ext _ q _ (no_table_in_order _)

theorem offer_key_no_table_pfx (q : List Char) (o : Offer) :
    hasPfx ("table".data ++ q) (qualified_identifier o).data = false := by
  rw [offer_key_data]
  exact hasPfx_false_of_ext _ q _ (no_offer_in_table _)

theorem order_key_no_table_pfx (q : List Char) (o : Order) :
    hasPfx ("table".data ++ q) (qualified_identifier o).data = false := by
  cases hfin : o.finished
  · rw [order_key_data_new o hfin]
    exact hasPfx_false_of_ext _ q _ (no_order_in_table_new _)
  · rw [order_key_data_old o hfin]
    exact hasPfx_false_of_ext _ q _ (no_order_in_table_old _)

theorem table_key_no_offer_pfx (q : List Char) (t : VirtualTable) :
    hasPfx ("offer".data ++ q) (qualified_identifier t).data = false := by
  rw [table_key_data]
  exact hasPfx_false_of_ext _ q _ (no_table_in_offer _)

theorem order_key_no_offer_pfx (q : List Char) (o : Order) :
    hasPfx ("offer".data ++ q) (qualified_identifier o).data = false := by
  cases hfin : o.finished
  · rw [order_key_data_new o hfin]
    exact hasPfx_false_of_ext _ q _ (no_order_in_offer_new _)
  · rw [order_key_data_old o hfin]
    exact hasPfx_false_of_ext _ q _ (no_order_in_offer_old _)

/-- In a well-formed database, every entry matching a test that starts with
"order" holds a serialized order. -/
theorem hdec_order (db : Db) (hWF : WellFormed db) (q : List Char) :
    ∀ kv ∈ db, hasPfx ("order".data ++ q) kv.fst.data = true →
      ∃ a : Order, kv.snd = serializeVal a := by
  intro kv hkv hpfx
  rcases hWF kv hkv with ⟨b, hb⟩ | ⟨b, hb⟩ | ⟨b, hb⟩
  · rw [hb] at hpfx
    rw [offer_key_no_order_pfx q b] at hpfx
    cases hpfx
  · rw [hb] at hpfx
    rw [table_key_no_order_pfx q b] at hpfx
    cases hpfx
  · exact ⟨b, by rw [hb]⟩

theorem hdec_offer (db : Db) (hWF : WellFormed db) (q : List Char) :
    ∀ kv ∈ db, hasPfx ("offer".data ++ q) kv.fst.data = true →
      ∃ a : Offer, kv.snd = serializeVal a := by
  intro kv hkv hpfx
  rcases hWF kv hkv with ⟨b, hb⟩ | ⟨b, hb⟩ | ⟨b, hb⟩
  · exact ⟨b, by rw [hb]⟩
  · rw [hb] at hpfx
    rw [table_key_no_offer_pfx q b] at hpfx
    cases hpfx
  · rw [hb] at hpfx
    rw [order_key_no_offer_pfx q b] at hpfx
    cases hpfx

theorem hdec_table (db : Db) (hWF : WellFormed db) (q : List Char) :
    ∀ kv ∈ db, hasPfx ("table".data ++ q) kv.fst.data = true →
      ∃ a : VirtualTable, kv.snd = serializeVal a := by
  intro kv hkv hpfx
  rcases hWF kv hkv with ⟨b, hb⟩ | ⟨b, hb⟩ | ⟨b, hb⟩
  · rw [hb] at hpfx
    rw [offer_key_no_table_pfx q b] at hpfx
    cases hpfx
  · exact ⟨b, by rw [hb]⟩
  · rw [hb] at hpfx
    rw [order_key_no_table_pfx q b] at hpfx
    cases hpfx

/-! ### The nine scan characterizations over a well-formed database -/

theorem get_all_offer_char (db : Db) (hWF : WellFormed db) :
    ∃ L, get_all Offer db = Except.ok L ∧
      ∀ o : Offer, o ∈ L ↔ (qualified_identifier o, serializeVal o) ∈ db := by
  obtain ⟨L, hL, hmem⟩ := scan_char Offer db "offer"
    (fun kv hkv h => hdec_offer db hWF [] kv hkv h)
    (fun a k hk => WF_key_offer db hWF k a hk)
  refine ⟨L, hL, fun o => ?_⟩
  rw [hmem]
  constructor
  · exact fun h => h.1
  · intro h1
    refine ⟨h1, ?_⟩
    rw [offer_key_data]
    exact pfx_offer_all _

theorem get_all_table_char (db : Db) (hWF : WellFormed db) :
    ∃ L, get_all VirtualTable db = Except.ok L ∧
      ∀ t : VirtualTable, t ∈ L ↔ (qualified_identifier t, serializeVal t) ∈ db := by
  obtain ⟨L, hL, hmem⟩ := scan_char VirtualTable db "table"
    (fun kv hkv h => hdec_table db hWF [] kv hkv h)
    (fun a k hk => WF_key_table db hWF k a hk)
  refine ⟨L, hL, fun t => ?_⟩
  rw [hmem]
  constructor
  · exact fun h => h.1
  · intro h1
    refine ⟨h1, ?_⟩
    rw [table_key_data]
    exact pfx_table_all _

theorem get_all_order_char (db : Db) (hWF : WellFormed db) :
    ∃ L, get_all Order db = Except.ok L ∧
      ∀ o : Order, o ∈ L ↔ (qualified_identifier o, serializeVal o) ∈ db := by
  obtain ⟨L, hL, hmem⟩ := scan_char Order db "order"
    (fun kv hkv h => hdec_order db hWF [] kv hkv h)
    (fun a k hk => WF_key_order db hWF k a hk)
  refine ⟨L, hL, fun o => ?_⟩
  rw [hmem]
  constructor
  · exact fun h => h.1
  · intro h1
    refine ⟨h1, ?_⟩
    cases hfin : o.finished
    · rw [order_key_data_new o hfin]
      exact pfx_order_all_new _
    · rw [order_key_data_old o hfin]
      exact pfx_order_all_old _

theorem get_status_offer_char (db : Db) (hWF : WellFormed db) (t : Offer) :
    ∃ L, get_status t db = Except.ok L ∧
      ∀ o : Offer, o ∈ L ↔ (qualified_identifier o, serializeVal o) ∈ db := by
  obtain ⟨L, hL, hmem⟩ := scan_char Offer db "offer/()"
    (fun kv hkv h => hdec_offer db hWF "/()".data kv hkv h)
    (fun a k hk => WF_key_offer db hWF k a hk)
  refine ⟨L, hL, fun o => ?_⟩
  rw [hmem]
  constructor
  · exact fun h => h.1
  · intro h1
    refine ⟨h1, ?_⟩
    rw [offer_key_data]
    exact pfx_offer_status _

theorem get_status_table_char (db : Db) (hWF : WellFormed db) (t : VirtualTable) :
    ∃ L, get_status t db = Except.ok L ∧
      ∀ o : VirtualTable, o ∈ L ↔ (qualified_identifier o, serializeVal o) ∈ db := by
  obtain ⟨L, hL, hmem⟩ := scan_char VirtualTable db "table/()"
    (fun kv hkv h => hdec_table db hWF "/()".data kv hkv h)
    (fun a k hk => WF_key_table db hWF k a hk)
  refine ⟨L, hL, fun o => ?_⟩
  rw [hmem]
  constructor
  · exact fun h => h.1
  · intro h1
    refine ⟨h1, ?_⟩
    rw [table_key_data]
    exact pfx_table_status _

theorem get_status_order_char (db : Db) (hWF : WellFormed db) (t : Order) :
    ∃ L, get_status t db = Except.ok L ∧
      ∀ o : Order, o ∈ L ↔
        ((qualified_identifier o, serializeVal o) ∈ db ∧ o.finished = t.finished) := by
  cases htfin : t.finished
  · obtain ⟨L, hL, hmem⟩ := scan_char Order db "order/(new)"
      (fun kv hkv h => hdec_order db hWF "/(new)".data kv hkv h)
      (fun a k hk => WF_key_order db hWF k a hk)
    refine ⟨L, ?_, fun o => ?_⟩
    · show collectScan Order
        ((dbScanPfx db (qualified_identifier_mainless_secondless t)).map Except.ok) = Except.ok L
      rw [order_msl_new t htfin]
      exact hL
    · rw [hmem]
      constructor
      · rintro ⟨h1, h2⟩
        refine ⟨h1, ?_⟩
        cases hofin : o.finished
        · rfl
        · rw [order_key_data_old o hofin, no_old_in_new] at h2
          cases h2
      · rintro ⟨h1, h2⟩
        refine ⟨h1, ?_⟩
        rw [order_key_data_new o h2]
        exact pfx_new_of_new _
  · obtain ⟨L, hL, hmem⟩ := scan_char Order db "order/(old)"
      (fun kv hkv h => hdec_order db hWF "/(old)".data kv hkv h)
      (fun a k hk => WF_key_order db hWF k a hk)
    refine ⟨L, ?_, fun o => ?_⟩
    · show collectScan Order
        ((dbScanPfx db (qualified_identifier_mainless_secondless t)).map Except.ok) = Except.ok L
      rw [order_msl_old t htfin]
      exact hL
    · rw [hmem]
      constructor
      · rintro ⟨h1, h2⟩
        refine ⟨h1, ?_⟩
        cases hofin : o.finished
        · rw [order_key_data_new o hofin, no_new_in_old] at h2
          cases h2
        · rfl
      · rintro ⟨h1, h2⟩
        refine ⟨h1, ?_⟩
        rw [order_key_data_old o h2]
        exact pfx_old_of_old _

theorem get_templated_offer_char (db : Db) (hWF : WellFormed db) (t : Offer) :
    ∃ L, get_templated t db = Except.ok L ∧
      ∀ o : Offer, o ∈ L ↔ (qualified_identifier o, serializeVal o) ∈ db := by
  obtain ⟨L, hL, hmem⟩ := scan_char Offer db "offer/()"
    (fun kv hkv h => hdec_offer db hWF "/()".data kv hkv h)
    (fun a k hk => WF_key_offer db hWF k a hk)
  refine ⟨L, hL, fun o => ?_⟩
  rw [hmem]
  constructor
  · exact fun h => h.1
  · intro h1
    refine ⟨h1, ?_⟩
    rw [offer_key_data]
    exact pfx_offer_status _

theorem get_templated_table_char (db : Db) (hWF : WellFormed db) (t : VirtualTable) :
    ∃ L, get_templated t db = Except.ok L ∧
      ∀ o : VirtualTable, o ∈ L ↔ (qualified_identifier o, serializeVal o) ∈ db := by
  obtain ⟨L, hL, hmem⟩ := scan_char VirtualTable db "table/()"
    (fun kv hkv h => hdec_table db hWF "/()".data kv hkv h)
    (fun a k hk => WF_key_table db hWF k a hk)
  refine ⟨L, hL, fun o => ?_⟩
  rw [hmem]
  constructor
  · exact fun h => h.1
  · intro h1
    refine ⟨h1, ?_⟩
    rw [table_key_data]
    exact pfx_table_status _

theorem get_templated_order_char (db : Db) (hWF : WellFormed db) (t : Order) :
    ∃ L, get_templated t db = Except.ok L ∧
      ∀ o : Order, o ∈ L ↔
        ((qualified_identifier o, serializeVal o) ∈ db ∧
          hasPfx (qualified_identifier_mainless t).data (qualified_identifier o).data = true) := by
  cases htfin : t.finished
  · obtain ⟨L, hL, hmem⟩ := scan_char Order db (qualified_identifier_mainless t)
      (fun kv hkv h => hdec_order db hWF ("/(new)/".data ++ t.id.table.data) kv hkv
        (by rw [order_mainless_new t htfin] at h; exact h))
      (fun a k hk => WF_key_order db hWF k a hk)
    exact ⟨L, hL, fun o => hmem o⟩
  · obtain ⟨L, hL, hmem⟩ := scan_char Order db (qualified_identifier_mainless t)
      (fun kv hkv h => hdec_order db hWF ("/(old)/".data ++ t.id.table.data) kv hkv
        (by rw [order_mainless_old t htfin] at h; exact h))
      (fun a k hk => WF_key_order db hWF k a hk)
    exact ⟨L, hL, fun o => hmem o⟩

/-! ## Claims -/

/-- C8: For every record of each kind, the qualified identifier equals the
namespace, then the status tags joined by commas and wrapped in
parentheses, then the secondary identifiers (omitted entirely when there
are none), then the main identifier, joined by the separator "/"; e.g.
"order/(new)/table1/689" for an unfinished order, and the 3-level key
"table/()/name" for kinds with no status tags and no secondary
identifiers. -/
theorem C8_key_format :
    (∀ o : Offer, qualified_identifier o = "offer" ++ "/" ++ "()" ++ "/" ++ o.name) ∧
    (∀ t : VirtualTable, qualified_identifier t = "table" ++ "/" ++ "()" ++ "/" ++ t.name) ∧
    (∀ o : Order, qualified_identifier o
      = "order" ++ "/" ++ ("(" ++ (if o.finished then "old" else "new") ++ ")")
          ++ "/" ++ o.id.table ++ "/" ++ Nat.repr o.id.count) ∧
    qualified_identifier (Order.mk (OrderID.mk "table1" 689) false []) = "order/(new)/table1/689" := by
  refine ⟨fun o => rfl, fun t => rfl, fun o => ?_, rfl⟩
  apply String.ext
  cases hfin : o.finished
  · rw [order_key_data_new o hfin]
    simp only [hfin, if_neg Bool.false_ne_true, sdata_append, List.append_assoc]
    rfl
  · rw [order_key_data_old o hfin]
    simp only [hfin, if_true, sdata_append, List.append_assoc]
    rfl

/-- C4: For every record kind and value, insert followed by an exact-key get
at the record's qualified identifier returns the original record, including
when an entry already existed at that exact key (the quantified `db` covers
that case; insert overwrites it). -/
theorem C4_round_trip (α : Type) [DatabaseElement α] (a : α) (db : Db) :
    get α (qualified_identifier a) (insert a db) = Except.ok (some a) := by
  simp [get, insert, dbGet_insert_self, deser_ser]

/-- C5: During a prefix scan, a deserialization failure on any single entry
aborts the whole scan with an error (no partial results), while items the
underlying iterator itself reports as errored are skipped without changing
the result. -/
theorem C5_scan_failure_policy (α : Type) [DatabaseElement α] :
    (∀ (l1 l2 : List (Except Unit (String × StoredValue))) (k : String) (v : StoredValue),
      deserializeVal (α := α) v = none →
      ∃ e, collectScan α (l1 ++ Except.ok (k, v) :: l2) = Except.error e) ∧
    (∀ (l1 l2 : List (Except Unit (String × StoredValue))) (u : Unit),
      collectScan α (l1 ++ Except.error u :: l2) = collectScan α (l1 ++ l2)) := by
  constructor
  · intro l1 l2 k v hv
    induction l1 with
    | nil => exact ⟨"deserialization failure", by simp [collectScan, hv]⟩
    | cons x l1 ih =>
      obtain ⟨e, he⟩ := ih
      cases x with
      | error u => exact ⟨e, by simpa [collectScan] using he⟩
      | ok kv =>
        cases hd : deserializeVal (α := α) kv.snd with
        | none => exact ⟨"deserialization failure", by simp [collectScan, hd]⟩
        | some a => exact ⟨e, by simp [collectScan, hd, he, Except.map]⟩
  · intro l1 l2 u
    induction l1 with
    | nil => rfl
    | cons x l1 ih =>
      cases x with
      | error w => simpa [collectScan] using ih
      | ok kv =>
        cases hd : deserializeVal (α := α) kv.snd with
        | none => simp [collectScan, hd]
        | some a => simp [collectScan, hd, ih]

/-- Witness for C5 at a concrete input: a table value among order entries
cannot be decoded as an order and aborts the order scan. -/
theorem C5_witness :
    deserializeVal (α := Order) (StoredValue.tableVal (VirtualTable.mk "T" 0)) = none ∧
    ∃ e, collectScan Order
        ([] ++ Except.ok ("k", StoredValue.tableVal (VirtualTable.mk "T" 0)) :: [])
      = Except.error e :=
  ⟨rfl, (C5_scan_failure_policy Order).1 [] [] "k" (StoredValue.tableVal (VirtualTable.mk "T" 0)) rfl⟩

/-- C6: exact-key get on a key that was never inserted returns the
distinguished not-found outcome `Except.ok none`, never an error; the two
outcomes are distinct results of the operation. -/
theorem C6_not_found (α : Type) [DatabaseElement α] (db : Db) (k : String)
    (h : ∀ kv ∈ db, kv.fst ≠ k) :
    get α k db = Except.ok none ∧ ∀ e : String, get α k db ≠ Except.error e := by
  have h2 := dbGet_eq_none_of_fresh db k h
  refine ⟨by simp [get, h2], fun e => by simp [get, h2]⟩

/-- Witness for C6 at a concrete input. -/
theorem C6_witness :
    get Offer "nope" [("offer/()/Kava", StoredValue.offerVal (Offer.mk "Kava" "d" 1 50))]
      = Except.ok none :=
  (C6_not_found Offer [("offer/()/Kava", StoredValue.offerVal (Offer.mk "Kava" "d" 1 50))] "nope"
    (by intro kv hkv; rcases List.mem_singleton.mp hkv with rfl; decide)).1

/-- C9: a create-order call naming a table that is not stored fails and
leaves the keyspace unchanged: no counter update and no order insertion
happens when the initial exact-key fetch of the table finds nothing. -/
theorem C9_missing_table (db : Db) (t : Order)
    (h : dbGet db (qualified_identifier (VirtualTable.mk t.id.table 0)) = none) :
    handler_orders_insert db t = (db, none) := by
  simp [handler_orders_insert, get, h]

/-- Witness for C9 at a concrete input: the empty keyspace stores no table. -/
theorem C9_witness :
    handler_orders_insert [] (Order.mk (OrderID.mk "T1" 0) false []) = ([], none) :=
  C9_missing_table [] (Order.mk (OrderID.mk "T1" 0) false []) rfl

/-! ### Helpers for the order-creation claims -/

theorem dbGet_mem (db : Db) (k : String) (v : StoredValue) (h : dbGet db k = some v) :
    (k, v) ∈ db := by
  unfold dbGet at h
  cases hf : List.find? (fun kv => kv.fst == k) db with
  | none => rw [hf] at h; cases h
  | some kv =>
    rw [hf] at h
    have hp := List.find?_some hf
    have hm := List.mem_of_find?_eq_some hf
    have hk : kv.fst = k := by simpa using hp
    have hv : kv.snd = v := by simpa using h
    have heta : (k, v) = kv := by rw [← hk, ← hv]
    rw [heta]
    exact hm

/-- In a well-formed database, the value found at a table's key carries
that table's name. -/
theorem table_name_of_WF (db : Db) (hWF : WellFormed db) (nm : String) (tbl : VirtualTable)
    (h : dbGet db (qualified_identifier (VirtualTable.mk nm 0)) = some (StoredValue.tableVal tbl)) :
    tbl.name = nm := by
  have hm := dbGet_mem db _ _ h
  have hk := WF_key_table db hWF _ tbl hm
  rw [table_key, table_key] at hk
  have hd := congrArg String.data hk
  rw [sdata_append, sdata_append] at hd
  exact (String.ext (List.append_cancel_left hd)).symm

theorem pfx_t_of_table (r : List Char) : hasPfx "t".data ("table/()/".data ++ r) = true := rfl

theorem no_t_of_order_new (r : List Char) : hasPfx "t".data ("order/(new)/".data ++ r) = false := rfl

theorem no_t_of_order_old (r : List Char) : hasPfx "t".data ("order/(old)/".data ++ r) = false := rfl

/-- An order's key is never a table's key. -/
theorem order_table_key_ne (o : Order) (t : VirtualTable) :
    qualified_identifier o ≠ qualified_identifier t := by
  intro h
  have hd := congrArg (fun s => hasPfx "t".data s.data) h
  simp only at hd
  rw [table_key_data] at hd
  cases hfin : o.finished
  · rw [order_key_data_new o hfin, no_t_of_order_new, pfx_t_of_table] at hd
    cases hd
  · rw [order_key_data_old o hfin, no_t_of_order_old, pfx_t_of_table] at hd
    cases hd

theorem dbGet_filter_other (l : Db) (k0 k : String) (h : k ≠ k0) :
    dbGet (l.filter fun kv => !(kv.fst == k0)) k = dbGet l k := by
  induction l with
  | nil => rfl
  | cons kv l ih =>
    by_cases hk : kv.fst = k
    · have hne : (kv.fst == k0) = false := beq_eq_false_iff_ne.mpr (by rw [hk]; exact h)
      have hkb : (kv.fst == k) = true := by simp [hk]
      simp [dbGet, List.filter_cons, hne, List.find?, hkb]
    · have hkb : (kv.fst == k) = false := beq_eq_false_iff_ne.mpr hk
      cases hk0 : (kv.fst == k0) with
      | false =>
        rw [List.filter_cons, hk0, show (!false) = true from rfl, if_pos rfl]
        rw [dbGet_cons_ne _ _ _ _ hkb, dbGet_cons_ne _ _ _ _ hkb]
        exact ih
      | true =>
        rw [List.filter_cons, hk0, show (!true) = false from rfl, if_neg (by simp)]
        rw [dbGet_cons_ne _ _ _ _ hkb]
        exact ih

/-- C10: the count field of the caller-supplied order template is ignored:
the handler behaves identically whatever count was submitted, and the
stored order's sequence number is always the fetched table's counter plus
one (as a 32-bit value). -/
theorem C10_submitted_count_ignored :
    (∀ (db : Db) (t : Order) (c : Nat),
      handler_orders_insert db { t with id := { t.id with count := c } }
        = handler_orders_insert db t) ∧
    (∀ (db : Db) (t : Order) (tbl : VirtualTable),
      dbGet db (qualified_identifier (VirtualTable.mk t.id.table 0))
          = some (StoredValue.tableVal tbl) →
      ∃ o : Order, (handler_orders_insert db t).snd = some o ∧
        o.id.count = (tbl.order_count + 1) % 4294967296 ∧
        o.id.table = t.id.table ∧ o.finished = t.finished ∧ o.items = t.items) := by
  constructor
  · intro db t c
    obtain ⟨⟨tb, cn⟩, fin, its⟩ := t
    rfl
  · intro db t tbl h
    have hget : get VirtualTable (qualified_identifier (VirtualTable.mk t.id.table 0)) db
        = Except.ok (some tbl) := by simp [get, h]
    refine ⟨{ t with id := { t.id with count := (tbl.order_count + 1) % 4294967296 } },
      ?_, rfl, rfl, rfl, rfl⟩
    simp [handler_orders_insert, hget]

/-- Witness for C10 at a concrete input: a submitted count of 99 is
replaced by counter+1. -/
theorem C10_witness : ∃ o : Order,
    (handler_orders_insert (insert (VirtualTable.mk "T1" 5) [])
        (Order.mk (OrderID.mk "T1" 99) false [])).snd = some o ∧
    o.id.count = (5 + 1) % 4294967296 ∧
    o.id.table = "T1" ∧ o.finished = false ∧ o.items = [] :=
  C10_submitted_count_ignored.2 (insert (VirtualTable.mk "T1" 5) [])
    (Order.mk (OrderID.mk "T1" 99) false []) (VirtualTable.mk "T1" 5) rfl

/-- C3: creating an order on an existing (well-formed) table increments the
stored counter by exactly one and uses its decimal form as the new order's
main identifier; concretely, from counter 0 two sequential create-order
calls yield identifiers "1" then "2" and leave the stored counter at 2. -/
theorem C3_order_numbering :
    (∀ (db : Db) (t : Order) (tbl : VirtualTable), WellFormed db →
      dbGet db (qualified_identifier (VirtualTable.mk t.id.table 0))
          = some (StoredValue.tableVal tbl) →
      tbl.order_count + 1 < 4294967296 →
      ∃ (db2 : Db) (o : Order),
        handler_orders_insert db t = (db2, some o) ∧
        o.id.count = tbl.order_count + 1 ∧
        main_identifier o = Nat.repr (tbl.order_count + 1) ∧
        dbGet db2 (qualified_identifier (VirtualTable.mk t.id.table 0))
          = some (StoredValue.tableVal { tbl with order_count := tbl.order_count + 1 })) ∧
    ((handler_orders_insert (insert (VirtualTable.mk "T1" 0) [])
        (Order.mk (OrderID.mk "T1" 0) false [])).snd.map main_identifier = some "1" ∧
     (handler_orders_insert
        (handler_orders_insert (insert (VirtualTable.mk "T1" 0) [])
          (Order.mk (OrderID.mk "T1" 0) false [])).fst
        (Order.mk (OrderID.mk "T1" 0) false [])).snd.map main_identifier = some "2" ∧
     dbGet (handler_orders_insert
        (handler_orders_insert (insert (VirtualTable.mk "T1" 0) [])
          (Order.mk (OrderID.mk "T1" 0) false [])).fst
        (Order.mk (OrderID.mk "T1" 0) false [])).fst
        (qualified_identifier (VirtualTable.mk "T1" 0))
       = some (StoredValue.tableVal (VirtualTable.mk "T1" 2))) := by
  constructor
  · intro db t tbl hWF h hlt
    have hmod : (tbl.order_count + 1) % 4294967296 = tbl.order_count + 1 :=
      Nat.mod_eq_of_lt hlt
    have hget : get VirtualTable (qualified_identifier (VirtualTable.mk t.id.table 0)) db
        = Except.ok (some tbl) := by simp [get, h]
    have hname := table_name_of_WF db hWF t.id.table tbl h
    have heq : handler_orders_insert db t
        = (insert { t with id := { t.id with count := (tbl.order_count + 1) % 4294967296 } }
            (insert { tbl with order_count := (tbl.order_count + 1) % 4294967296 } db),
           some { t with id := { t.id with count := (tbl.order_count + 1) % 4294967296 } }) := by
      simp [handler_orders_insert, hget]
    refine ⟨_, _, heq, by simp [hmod], ?_, ?_⟩
    · show Nat.repr ((tbl.order_count + 1) % 4294967296) = Nat.repr (tbl.order_count + 1)
      rw [hmod]
    · have hne : qualified_identifier
          { t with id := { t.id with count := (tbl.order_count + 1) % 4294967296 } }
          ≠ qualified_identifier (VirtualTable.mk t.id.table 0) :=
        order_table_key_ne _ _
      have hbeq := beq_eq_false_iff_ne.mpr hne
      show dbGet (dbInsert _ _ _) _ = _
      rw [dbInsert]
      rw [dbGet_cons_ne _ _ _ _ hbeq]
      rw [dbGet_filter_other _ _ _ (Ne.symm hne)]
      have hkey : qualified_identifier
          { tbl with order_count := (tbl.order_count + 1) % 4294967296 }
          = qualified_identifier (VirtualTable.mk t.id.table 0) := by
        rw [table_key, table_key]
        show "table/()/" ++ tbl.name = "table/()/" ++ t.id.table
        rw [hname]
      show dbGet (dbInsert _ _ _) _ = _
      rw [← hkey, dbGet_insert_self, hmod]
      rfl
  · exact ⟨rfl, rfl, rfl⟩

/-! ### C1: scan scoping -/

/-- The scan-scoping property that actually holds of the code: `get_all`
and `get_status` return exactly the matching records for every kind, and
`get_templated` does so for offers and tables; for orders, `get_templated`
returns exactly the stored orders whose full key string begins with the
template's namespace/status/table prefix — since that prefix carries no
trailing separator, this admits same-status orders of any table whose name
extends the scanned table's name. -/
def ScansCharacterized (db : Db) : Prop :=
  (∃ L, get_all Offer db = Except.ok L ∧
    ∀ o : Offer, o ∈ L ↔ (qualified_identifier o, serializeVal o) ∈ db) ∧
  (∃ L, get_all VirtualTable db = Except.ok L ∧
    ∀ t : VirtualTable, t ∈ L ↔ (qualified_identifier t, serializeVal t) ∈ db) ∧
  (∃ L, get_all Order db = Except.ok L ∧
    ∀ o : Order, o ∈ L ↔ (qualified_identifier o, serializeVal o) ∈ db) ∧
  (∀ tm : Offer, ∃ L, get_status tm db = Except.ok L ∧
    ∀ o : Offer, o ∈ L ↔ (qualified_identifier o, serializeVal o) ∈ db) ∧
  (∀ tm : VirtualTable, ∃ L, get_status tm db = Except.ok L ∧
    ∀ t : VirtualTable, t ∈ L ↔ (qualified_identifier t, serializeVal t) ∈ db) ∧
  (∀ tm : Order, ∃ L, get_status tm db = Except.ok L ∧
    ∀ o : Order, o ∈ L ↔
      ((qualified_identifier o, serializeVal o) ∈ db ∧ o.finished = tm.finished)) ∧
  (∀ tm : Offer, ∃ L, get_templated tm db = Except.ok L ∧
    ∀ o : Offer, o ∈ L ↔ (qualified_identifier o, serializeVal o) ∈ db) ∧
  (∀ tm : VirtualTable, ∃ L, get_templated tm db = Except.ok L ∧
    ∀ t : VirtualTable, t ∈ L ↔ (qualified_identifier t, serializeVal t) ∈ db) ∧
  (∀ tm : Order, ∃ L, get_templated tm db = Except.ok L ∧
    ∀ o : Order, o ∈ L ↔
      ((qualified_identifier o, serializeVal o) ∈ db ∧
        hasPfx (qualified_identifier_mainless tm).data (qualified_identifier o).data = true))

/-- C1 (amended): over a well-formed database, `get_all` and `get_status`
return exactly the records of the scanned kind (and status), for all three
kinds; `get_templated` is exact for offers and tables, and for orders it
returns exactly the stored orders whose key extends the template's
namespace/status/table prefix string, which can include orders of a table
whose name merely extends the scanned table's name. -/
theorem C1_scan_scoping (db : Db) (hWF : WellFormed db) : ScansCharacterized db :=
  ⟨get_all_offer_char db hWF, get_all_table_char db hWF, get_all_order_char db hWF,
   fun tm => get_status_offer_char db hWF tm,
   fun tm => get_status_table_char db hWF tm,
   fun tm => get_status_order_char db hWF tm,
   fun tm => get_templated_offer_char db hWF tm,
   fun tm => get_templated_table_char db hWF tm,
   fun tm => get_templated_order_char db hWF tm⟩

def stol10order : Order := Order.mk (OrderID.mk "Stol 10" 5) false []

/-- C1 counterexample: with only an order of table "Stol 10" stored, the
group scan for table "Stol 1" (same status) returns that order, although it
belongs to a differently-named table — refuting "scanning the group of a
table named \"Stol 1\" returns no order belonging to a differently-named
table such as \"Stol 10\"". -/
theorem C1_counterexample :
    get_templated (Order.mk (OrderID.mk "Stol 1" 0) false []) (insert stol10order [])
      = Except.ok [stol10order] ∧ stol10order.id.table ≠ "Stol 1" :=
  ⟨rfl, by decide⟩

def w1offer : Offer := Offer.mk "Kava" "kava" 1 50

def w1table : VirtualTable := VirtualTable.mk "Stol 1" 2

def w1new : Order := Order.mk (OrderID.mk "Stol 1" 1) false [OrderItem.mk "Kava" 2]

def w1old : Order := Order.mk (OrderID.mk "Stol 1" 2) true []

def w1db : Db := insert w1new (insert w1old (insert w1table (insert w1offer [])))

/-- Witness for C1 at a concrete database holding all three kinds. -/
theorem C1_witness : ScansCharacterized w1db :=
  C1_scan_scoping w1db (by
    intro kv hkv
    rcases List.mem_cons.mp hkv with rfl | hkv1
    · exact Or.inr (Or.inr ⟨w1new, rfl⟩)
    rcases List.mem_cons.mp (List.mem_filter.mp hkv1).1 with rfl | hkv2
    · exact Or.inr (Or.inr ⟨w1old, rfl⟩)
    rcases List.mem_cons.mp (List.mem_filter.mp hkv2).1 with rfl | hkv3
    · exact Or.inr (Or.inl ⟨w1table, rfl⟩)
    rcases List.mem_cons.mp (List.mem_filter.mp hkv3).1 with rfl | hkv4
    · exact Or.inl ⟨w1offer, rfl⟩
    · exact absurd (List.mem_filter.mp hkv4).1 (by simp))

/-! ### C7: removal -/

/-- After removing a record, no successful scan at any template can still
contain it, provided values of its kind sit at their own keys. -/
theorem not_in_scan_of_removed (α : Type) [DatabaseElement α] (db : Db) (a : α) (p : String)
    (hkey : ∀ (b : α) (k : String), (k, serializeVal b) ∈ remove a db → k = qualified_identifier b)
    (L : List α) (hL : collectScan α ((dbScanPfx (remove a db) p).map Except.ok) = Except.ok L) :
    a ∉ L := by
  intro ha
  obtain ⟨k, hk⟩ := collectScan_mem α _ L hL a ha
  obtain ⟨kv, hkv, heq⟩ := List.mem_map.mp hk
  have hkveq : kv = (k, serializeVal a) := Except.ok.inj heq
  subst hkveq
  have hmem : (k, serializeVal a) ∈ remove a db := ((mem_dbScanPfx _ _ _).mp hkv).1
  have hgoal := hkey a k hmem
  subst hgoal
  have h2 := (List.mem_filter.mp hmem).2
  simp at h2

/-- C7: removing a record deletes the entry at its qualified key (and is a
no-op when absent — the operation is total and never fails in the model);
afterwards `exists` is false, and over a well-formed database the record no
longer appears in any successful `get_all`, `get_status` or `get_templated`
scan, for each record kind. -/
theorem C7_remove_effects (db : Db) :
    (∀ (α : Type) [_inst : DatabaseElement α] (a : α),
      dbGet (remove a db) (qualified_identifier a) = none ∧
      existsElem a (remove a db) = false) ∧
    (WellFormed db → ∀ o : Order,
      (∀ L, get_all Order (remove o db) = Except.ok L → o ∉ L) ∧
      (∀ (tm : Order) (L : List Order), get_status tm (remove o db) = Except.ok L → o ∉ L) ∧
      (∀ (tm : Order) (L : List Order), get_templated tm (remove o db) = Except.ok L → o ∉ L)) ∧
    (WellFormed db → ∀ o : Offer,
      (∀ L, get_all Offer (remove o db) = Except.ok L → o ∉ L) ∧
      (∀ (tm : Offer) (L : List Offer), get_status tm (remove o db) = Except.ok L → o ∉ L) ∧
      (∀ (tm : Offer) (L : List Offer), get_templated tm (remove o db) = Except.ok L → o ∉ L)) ∧
    (WellFormed db → ∀ t : VirtualTable,
      (∀ L, get_all VirtualTable (remove t db) = Except.ok L → t ∉ L) ∧
      (∀ (tm : VirtualTable) (L : List VirtualTable),
        get_status tm (remove t db) = Except.ok L → t ∉ L) ∧
      (∀ (tm : VirtualTable) (L : List VirtualTable),
        get_templated tm (remove t db) = Except.ok L → t ∉ L)) := by
  refine ⟨?_, ?_, ?_, ?_⟩
  · intro α _inst a
    have h1 : dbGet (remove a db) (qualified_identifier a) = none :=
      dbGet_filter_ne db (qualified_identifier a)
    exact ⟨h1, by simp [existsElem, dbContains, h1]⟩
  · intro hWF o
    have hkey : ∀ (b : Order) (k : String),
        (k, serializeVal b) ∈ remove o db → k = qualified_identifier b :=
      fun b k hk => WF_key_order (remove o db) (WF_filter db _ hWF) k b hk
    exact ⟨fun L hL => not_in_scan_of_removed Order db o _ hkey L hL,
      fun tm L hL => not_in_scan_of_removed Order db o _ hkey L hL,
      fun tm L hL => not_in_scan_of_removed Order db o _ hkey L hL⟩
  · intro hWF o
    have hkey : ∀ (b : Offer) (k : String),
        (k, serializeVal b) ∈ remove o db → k = qualified_identifier b :=
      fun b k hk => WF_key_offer (remove o db) (WF_filter db _ hWF) k b hk
    exact ⟨fun L hL => not_in_scan_of_removed Offer db o _ hkey L hL,
      fun tm L hL => not_in_scan_of_removed Offer db o _ hkey L hL,
      fun tm L hL => not_in_scan_of_removed Offer db o _ hkey L hL⟩
  · intro hWF t
    have hkey : ∀ (b : VirtualTable) (k : String),
        (k, serializeVal b) ∈ remove t db → k = qualified_identifier b :=
      fun b k hk => WF_key_table (remove t db) (WF_filter db _ hWF) k b hk
    exact ⟨fun L hL => not_in_scan_of_removed VirtualTable db t _ hkey L hL,
      fun tm L hL => not_in_scan_of_removed VirtualTable db t _ hkey L hL,
      fun tm L hL => not_in_scan_of_removed VirtualTable db t _ hkey L hL⟩

def w7order : Order := Order.mk (OrderID.mk "W7" 3) false []

/-- Witness for C7 at a concrete database holding one order. -/
theorem C7_witness :
    dbGet (remove w7order (insert w7order [])) (qualified_identifier w7order) = none ∧
    existsElem w7order (remove w7order (insert w7order [])) = false ∧
    ∀ L, get_all Order (remove w7order (insert w7order [])) = Except.ok L → w7order ∉ L := by
  have h := C7_remove_effects (insert w7order [])
  have hWF : WellFormed (insert w7order []) := by
    intro kv hkv
    rcases List.mem_cons.mp hkv with rfl | habs
    · exact Or.inr (Or.inr ⟨w7order, rfl⟩)
    · exact absurd (List.mem_filter.mp habs).1 (by simp)
  exact ⟨(h.1 Order w7order).1, (h.1 Order w7order).2, fun L hL => (h.2.1 hWF w7order).1 L hL⟩

/-! ### C2: finish-order transition -/

theorem pfxo_of_old (r : List Char) : hasPfx "order/(o".data ("order/(old)/".data ++ r) = true := rfl

theorem no_pfxo_of_new (r : List Char) : hasPfx "order/(o".data ("order/(new)/".data ++ r) = false := rfl

/-- Key data of a finished order never equals key data of an unfinished one. -/
theorem old_new_data_ne (r q : List Char) :
    "order/(old)/".data ++ r ≠ "order/(new)/".data ++ q := by
  intro h
  have h2 := congrArg (fun l => hasPfx "order/(o".data l) h
  simp only at h2
  rw [pfxo_of_old, no_pfxo_of_new] at h2
  cases h2

/-- An unfinished order and its finished copy live at different keys. -/
theorem finished_key_ne (t : Order) (hfin : t.finished = false) :
    qualified_identifier { t with finished := true } ≠ qualified_identifier t := by
  intro h
  have hd := congrArg String.data h
  rw [order_key_data_old { t with finished := true } rfl, order_key_data_new t hfin] at hd
  exact old_new_data_ne _ _ hd

/-- The full effect the status-transition claim demands of finishing a
stored order `t` in database `db`: the handler removes the old-key entry
and inserts the finished copy at the new key; afterwards the old key is
empty, a "new"-status scan includes no order with `t`'s identity, and an
"old"-status scan includes the order with identical identity and items. -/
def FinishTransition (db : Db) (t : Order) : Prop :=
  handler_orders_finish db t
      = (insert { t with finished := true } (remove t db), some t.id.table) ∧
  dbGet (insert { t with finished := true } (remove t db)) (qualified_identifier t) = none ∧
  (∃ L, get_status t (insert { t with finished := true } (remove t db)) = Except.ok L ∧
    ∀ o ∈ L, o.id ≠ t.id) ∧
  (∃ L, get_status { t with finished := true }
      (insert { t with finished := true } (remove t db)) = Except.ok L ∧
    ∃ o ∈ L, o.id = t.id ∧ o.items = t.items ∧ o.finished = true)

/-- C2: finishing a stored unfinished order removes the entry at its old
open-status key and inserts the same order with finished set at the
finished-status key; afterwards a "new" status scan no longer includes its
identity, an "old" status scan includes it with identical line items and
identity, and no entry remains under the old key. -/
theorem C2_finish_order (db : Db) (t : Order) (hWF : WellFormed db)
    (hfin : t.finished = false)
    (hstored : dbGet db (qualified_identifier t) = some (serializeVal t)) :
    FinishTransition db t := by
  have hget : get Order (qualified_identifier t) db = Except.ok (some t) := by
    simp [get, hstored, deser_ser]
  have hkne := finished_key_ne t hfin
  have hbeq : (qualified_identifier { t with finished := true } == qualified_identifier t)
      = false := beq_eq_false_iff_ne.mpr hkne
  have hWF2 : WellFormed (insert { t with finished := true } (remove t db)) :=
    WF_insert_order _ (WF_filter db _ hWF) _
  refine ⟨?_, ?_, ?_, ?_⟩
  · simp [handler_orders_finish, hget]
  · show dbGet (dbInsert _ _ _) _ = _
    rw [dbInsert, dbGet_cons_ne _ _ _ _ hbeq]
    apply dbGet_eq_none_of_fresh
    intro kv hkv
    have h2 := (List.mem_filter.mp (List.mem_filter.mp hkv).1).2
    simpa using h2
  · obtain ⟨L, hL, hmem⟩ := get_status_order_char _ hWF2 t
    refine ⟨L, hL, fun o ho hid => ?_⟩
    obtain ⟨hentry, hof⟩ := (hmem o).mp ho
    have hofin : o.finished = false := hof.trans hfin
    have hkey : qualified_identifier o = qualified_identifier t :=
      order_key_congr o t hid (hofin.trans hfin.symm)
    rcases List.mem_cons.mp hentry with hhead | htail
    · have h1 : qualified_identifier o
          = qualified_identifier { t with finished := true } := (Prod.ext_iff.mp hhead).1
      exact hkne (h1 ▸ hkey)
    · have h3 := (List.mem_filter.mp (List.mem_filter.mp htail).1).2
      rw [hkey] at h3
      simp at h3
  · obtain ⟨L, hL, hmem⟩ := get_status_order_char _ hWF2 { t with finished := true }
    refine ⟨L, hL, { t with finished := true }, ?_, rfl, rfl, rfl⟩
    exact (hmem _).mpr ⟨List.mem_cons_self _ _, rfl⟩

def w2order : Order := Order.mk (OrderID.mk "T" 1) false [OrderItem.mk "Kava" 2]

/-- Witness for C2 at a concrete stored order. -/
theorem C2_witness : FinishTransition (insert w2order []) w2order :=
  C2_finish_order (insert w2order []) w2order
    (by
      intro kv hkv
      rcases List.mem_cons.mp hkv with rfl | habs
      · exact Or.inr (Or.inr ⟨w2order, rfl⟩)
      · exact absurd (List.mem_filter.mp habs).1 (by simp))
    rfl
    rfl

/-- Witness for C3 at a concrete input: counter 0 becomes 1 and the new
order is numbered "1". -/
theorem C3_witness : ∃ (db2 : Db) (o : Order),
    handler_orders_insert (insert (VirtualTable.mk "W3" 0) [])
        (Order.mk (OrderID.mk "W3" 0) false [OrderItem.mk "Kava" 1]) = (db2, some o) ∧
    o.id.count = 0 + 1 ∧
    main_identifier o = Nat.repr (0 + 1) ∧
    dbGet db2 (qualified_identifier (VirtualTable.mk "W3" 0))
      = some (StoredValue.tableVal { VirtualTable.mk "W3" 0 with order_count := 0 + 1 }) :=
  C3_order_numbering.1 (insert (VirtualTable.mk "W3" 0) [])
    (Order.mk (OrderID.mk "W3" 0) false [OrderItem.mk "Kava" 1]) (VirtualTable.mk "W3" 0)
    (by
      intro kv hkv
      rcases List.mem_cons.mp hkv with rfl | habs
      · exact Or.inr (Or.inl ⟨VirtualTable.mk "W3" 0, rfl⟩)
      · simp at habs)
    rfl
    (by decide)

end Oby
